import Mathlib

/-!
# Verification of the glide-for-redis Node client core

This file is a shallow embedding of the request-dispatch core of the
Node wrapper: `BaseClient.ts` (read path `handleReadData`, callback-slot
allocation `getCallbackIndex`, the write path
`writeOrBufferRequest`/`writeBufferedRequestsToSocket`, `createWritePromise`,
`close`, `getRequestErrorClass`) and the cluster client file
(`toProtobufRoute`, `RedisClusterClient.exec`).

Conventions of the embedding:
* JavaScript arrays indexed by `callbackIdx` become `List EntryState`
  (`EntryState.hole` models an absent array element, i.e. `undefined`).
* The `availableCallbackSlots` stack is a `List Nat` whose *head* is the
  top of the stack (`push` = cons, `pop` = head/tail).
* Promise semantics: a promise settles at most once, so settling an
  already-settled entry keeps its first outcome.
* Byte buffers are `List Nat`; the protobuf length-delimited framing is
  modelled with a real varint length prefix.  The payload serialization
  of a `Response` is a faithful injective field-by-field codec (the
  protobuf schema file of `response` is not part of the sources; the
  fields are exactly the ones `handleReadData` reads).
-/

/-- The error-kind enum of `response.proto` (`response.RequestErrorType`).
The proto file itself is not under the sources; the four kinds are the ones
`getRequestErrorClass` in `BaseClient.ts` matches on, and the spec lists
exactly these: `Disconnect`, `ExecAbort`, `Timeout`, `Unspecified`. -/
inductive RequestErrorType where
  | Unspecified
  | ExecAbort
  | Timeout
  | Disconnect
deriving DecidableEq

/-- `response.ConstantResponse` — the only constant response is `OK`. -/
inductive ConstantResponse where
  | OK
deriving DecidableEq

/-- The sub-message `response.RequestError` with the two fields
`handleReadData` reads: `type` and `message`. -/
structure RequestErrorMsg where
  type : Option RequestErrorType := none
  message : Option String := none
deriving DecidableEq

/-- The decoded response frame `response.Response`, with exactly the fields
`handleReadData` reads (`callbackIdx`, `closingError`, `requestError`,
`respPointer`, `constantResponse`).  The `respPointer` field carries the
split pointer; the client treats it opaquely (number and `Long` forms both
reconstruct the same pointer value), so it is one `Nat` here. -/
structure ResponseMsg where
  callbackIdx : Nat := 0
  closingError : Option String := none
  requestError : Option RequestErrorMsg := none
  respPointer : Option Nat := none
  constantResponse : Option ConstantResponse := none
deriving DecidableEq

/-- The error classes imported from `./Errors` that the dispatch core
constructs (`Errors.ts` is not under the sources; only the class names are
needed, since each class is a message-carrying wrapper). -/
inductive ErrKind where
  | ClosingError
  | ConnectionError
  | ExecAbortError
  | RequestError
  | TimeoutError
deriving DecidableEq

/-- `getRequestErrorClass` from `BaseClient.ts` (renamed `Kind` for the
error-class *name*): the if-chain mapping a `RequestErrorType` to the error
class used to reject the pending promise. -/
def getRequestErrorKind (type : Option RequestErrorType) : ErrKind :=
  if type = some RequestErrorType.Disconnect then ErrKind.ConnectionError
  else if type = some RequestErrorType.ExecAbort then ErrKind.ExecAbortError
  else if type = some RequestErrorType.Timeout then ErrKind.TimeoutError
  else if type = some RequestErrorType.Unspecified then ErrKind.RequestError
  else ErrKind.RequestError

namespace redis_request

/-- An opaque pre-built command value (`redis_request.Command`); the core
treats commands opaquely, so only an identity is kept. -/
structure Command where
  id : Nat
deriving DecidableEq

/-- `redis_request.ScriptInvocation`, treated opaquely by the dispatch core. -/
structure ScriptInvocation where
  id : Nat
deriving DecidableEq

/-- `redis_request.Transaction`: the ordered command list of a transaction. -/
structure Transaction where
  commands : List Command
deriving DecidableEq

/-- `redis_request.SimpleRoutes`. -/
inductive SimpleRoutes where
  | AllNodes
  | AllPrimaries
  | Random
deriving DecidableEq

/-- `redis_request.SlotTypes`. -/
inductive SlotTypes where
  | Primary
  | Replica
deriving DecidableEq

/-- `redis_request.SlotKeyRoute`: a slot key plus the slot type. -/
structure SlotKeyRoute where
  slotType : SlotTypes
  slotKey : String
deriving DecidableEq

/-- `redis_request.SlotIdRoute`: a numeric slot id plus the slot type. -/
structure SlotIdRoute where
  slotType : SlotTypes
  slotId : Nat
deriving DecidableEq

/-- Modelled from the spec: the `redis_request.Routes` protobuf message
(`redis_request.proto` is not under the sources).  Per the spec's routing
data model it has a variant for the simple routes, a slot-key variant and a
slot-id variant, each carrying only its own data.  Because JavaScript does
not check the type of the value assigned to the `slotKeyRoute` property,
`toProtobufRoute` can (and does, in its slot-id branches) store a
`SlotIdRoute` object there; the field is therefore a `Sum` of the two
message types, recording exactly which object the code stored. -/
structure Routes where
  simpleRoutes : Option SimpleRoutes := none
  slotKeyRoute : Option (Sum SlotKeyRoute SlotIdRoute) := none
  slotIdRoute : Option SlotIdRoute := none
deriving DecidableEq

/-- `redis_request.RedisRequest`: the outbound request envelope built by
`writeOrBufferRedisRequest` — a callback index, exactly one of
`singleCommand` / `transaction` / `scriptInvocation`, and an optional
route (assigned afterwards via `message.route = route`). -/
structure RedisRequest where
  callbackIdx : Nat
  singleCommand : Option Command := none
  transaction : Option Transaction := none
  scriptInvocation : Option ScriptInvocation := none
  route : Option Routes := none
deriving DecidableEq

end redis_request

/-- The TypeScript `SlotIdTypes` object: `type` is `"primarySlotId"` or
`"replicaSlotId"`, plus the numeric slot id. -/
inductive SlotIdTypes where
  | primarySlotId (id : Nat)
  | replicaSlotId (id : Nat)
deriving DecidableEq

/-- The TypeScript `SlotKeyTypes` object: `type` is `"primarySlotKey"` or
`"replicaSlotKey"`, plus the key. -/
inductive SlotKeyTypes where
  | primarySlotKey (key : String)
  | replicaSlotKey (key : String)
deriving DecidableEq

/-- The TypeScript `SingleNodeRoute` union. -/
inductive SingleNodeRoute where
  | randomNode
  | bySlotId (r : SlotIdTypes)
  | bySlotKey (r : SlotKeyTypes)
deriving DecidableEq

/-- The TypeScript `Routes` union: a single-node route, `"allPrimaries"` or
`"allNodes"`. -/
inductive RoutesArg where
  | single (r : SingleNodeRoute)
  | allPrimaries
  | allNodes
deriving DecidableEq

/-- `toProtobufRoute` from the cluster client file, branch for branch.  In
the `primarySlotId` / `replicaSlotId` branches the source assigns the
freshly created `SlotIdRoute` object to the **`slotKeyRoute`** property of
the `Routes` message (`Sum.inr`), and never sets the slot-id field. -/
def toProtobufRoute : Option RoutesArg → Option redis_request.Routes
  | none => none
  | some RoutesArg.allPrimaries =>
      some { simpleRoutes := some redis_request.SimpleRoutes.AllPrimaries }
  | some RoutesArg.allNodes =>
      some { simpleRoutes := some redis_request.SimpleRoutes.AllNodes }
  | some (RoutesArg.single SingleNodeRoute.randomNode) =>
      some { simpleRoutes := some redis_request.SimpleRoutes.Random }
  | some (RoutesArg.single (SingleNodeRoute.bySlotKey (SlotKeyTypes.primarySlotKey key))) =>
      some { slotKeyRoute := some (Sum.inl
               { slotType := redis_request.SlotTypes.Primary, slotKey := key }) }
  | some (RoutesArg.single (SingleNodeRoute.bySlotKey (SlotKeyTypes.replicaSlotKey key))) =>
      some { slotKeyRoute := some (Sum.inl
               { slotType := redis_request.SlotTypes.Replica, slotKey := key }) }
  | some (RoutesArg.single (SingleNodeRoute.bySlotId (SlotIdTypes.primarySlotId id))) =>
      some { slotKeyRoute := some (Sum.inr
               { slotType := redis_request.SlotTypes.Primary, slotId := id }) }
  | some (RoutesArg.single (SingleNodeRoute.bySlotId (SlotIdTypes.replicaSlotId id))) =>
      some { slotKeyRoute := some (Sum.inr
               { slotType := redis_request.SlotTypes.Replica, slotId := id }) }

/-- The settlement outcome of a promise registered in the pending table:
the read path either rejects it with an error class plus the server's
message, resolves it from the `respPointer` (via `valueFromSplitPointer`,
kept opaque), resolves it with the string `"OK"`, or resolves it with
`null`.  `close` rejects with `ClosingError`. -/
inductive Outcome where
  | rejected (e : ErrKind) (msg : Option String)
  | resolvedPointer (p : Nat)
  | resolvedOK
  | resolvedNull
deriving DecidableEq

/-- One slot of the `promiseCallbackFunctions` array, viewed at the promise
level: `hole` means no `[resolve, reject]` pair was ever stored at this
index (the array element is `undefined`); `pending` means a pair is stored
and the promise is unsettled; `settled o` means a pair is stored but the
promise has already settled with outcome `o` (the pair itself is never
removed by the source, so a stale pair stays in the array). -/
inductive EntryState where
  | hole
  | pending
  | settled (o : Outcome)
deriving DecidableEq

/-- A request appended to the shared `requestWriter`: either an encoded
`RedisRequest` or the initial `ConnectionRequest` of `connectToServer`
(whose payload the claims do not inspect). -/
inductive WireRequest where
  | redis (m : redis_request.RedisRequest)
  | connection
deriving DecidableEq

/-- The fine-grained command argument of `createWritePromise`: a single
`Command`, an array of commands (a transaction), or a `ScriptInvocation`. -/
inductive CommandArg where
  | single (c : redis_request.Command)
  | transaction (cs : List redis_request.Command)
  | script (si : redis_request.ScriptInvocation)
deriving DecidableEq

/-- The state of one `BaseClient`.  Fields mirror the private fields of the
class; `inFlight` models the chunks handed to `socket.write` whose
completion callback has not yet run, `written` the chunks the socket has
accepted, `crashed` that an exception escaped the `data` handler
(uncaught), and `events` / `submitted` are ghost logs recording, in order,
the promise settlements and the requests appended to the writer. -/
structure ClientState where
  table : List EntryState := []
  available : List Nat := []
  writerBuf : List WireRequest := []
  writeInProgress : Bool := false
  inFlight : List (List WireRequest) := []
  written : List WireRequest := []
  rem : List Nat := []
  isClosed : Bool := false
  socketEnded : Bool := false
  crashed : Bool := false
  events : List (Nat × Outcome) := []
  submitted : List WireRequest := []
deriving DecidableEq

/-- Array read `promiseCallbackFunctions[i]`: out-of-range and never-written
slots read as `undefined` (`hole`). -/
def tableGet (t : List EntryState) (i : Nat) : EntryState :=
  t.getD i EntryState.hole

/-- Array write `promiseCallbackFunctions[i] = pair`: JavaScript extends the
array with holes if `i` is beyond its current length. -/
def tableStore (t : List EntryState) (i : Nat) (e : EntryState) : List EntryState :=
  if i < t.length then t.set i e
  else t ++ List.replicate (i - t.length) EntryState.hole ++ [e]

/-- Settling an entry at the promise level: a pending promise settles with
the given outcome; a settled promise ignores further resolve/reject calls;
a hole stays a hole (`forEach` skips absent elements). -/
def settleEntry (o : Outcome) : EntryState → EntryState
  | EntryState.pending => EntryState.settled o
  | e => e

/-- The settlements performed by `close`'s `forEach` over the table, in
ascending index order: every still-pending promise is rejected once. -/
def closeEvents (t : List EntryState) (msg : Option String) : List (Nat × Outcome) :=
  (List.range t.length).filterMap fun i =>
    if tableGet t i = EntryState.pending
    then some (i, Outcome.rejected ErrKind.ClosingError msg) else none

/-- `close` from `BaseClient.ts`: set `isClosed`, reject every stored
promise pair with a `ClosingError` carrying the optional message (a no-op
on already-settled promises), and end the socket. -/
def close (msg : Option String) (s : ClientState) : ClientState :=
  { s with isClosed := true
           table := s.table.map (settleEntry (Outcome.rejected ErrKind.ClosingError msg))
           events := s.events ++ closeEvents s.table msg
           socketEnded := true }

/-- `getCallbackIndex`: pop of the free-slot stack, or the fresh index
`promiseCallbackFunctions.length` when the stack is empty. -/
def getCallbackIndex (s : ClientState) : Nat :=
  s.available.headD s.table.length

/-- The resolve/reject branch of `handleReadData` for a frame that is not a
closing error, as the outcome for the pending promise: `requestError`
first, then `respPointer`, then the `OK` constant, else `null`. -/
def outcomeOf (m : ResponseMsg) : Outcome :=
  match m.requestError with
  | some re => Outcome.rejected (getRequestErrorKind re.type) re.message
  | none =>
    match m.respPointer with
    | some p => Outcome.resolvedPointer p
    | none =>
      if m.constantResponse = some ConstantResponse.OK then Outcome.resolvedOK
      else Outcome.resolvedNull

/-- The per-frame bookkeeping of `handleReadData` after the pair lookup
succeeded: push the callback index onto the free-slot stack, then settle
the promise (recording the settlement in the ghost event log only when the
promise was still pending). -/
def settleResponse (m : ResponseMsg) (s : ClientState) : ClientState :=
  let s1 := { s with available := m.callbackIdx :: s.available }
  match tableGet s1.table m.callbackIdx with
  | EntryState.pending =>
      { s1 with table := s1.table.set m.callbackIdx (EntryState.settled (outcomeOf m))
                events := s1.events ++ [(m.callbackIdx, outcomeOf m)] }
  | _ => s1

/-- Whether the read loop returned out of `handleReadData` (`halt`) or
continues with the next frame (`cont`). -/
inductive StepResult where
  | halt (s : ClientState)
  | cont (s : ClientState)
deriving DecidableEq

/-- The state carried by a `StepResult`. -/
def StepResult.state : StepResult → ClientState
  | StepResult.halt s => s
  | StepResult.cont s => s

/-- The body of `handleReadData`'s loop for one decoded frame: a frame with
a `closingError` closes the whole client and returns; otherwise the pair at
`callbackIdx` is looked up — destructuring an absent pair throws a
`TypeError` that escapes the `data` handler (modelled by `crashed`), it
does **not** close the client; otherwise the index is recycled and the
promise settled. -/
def handleMessage (s : ClientState) (m : ResponseMsg) : StepResult :=
  if m.closingError.isSome then StepResult.halt (close m.closingError s)
  else if tableGet s.table m.callbackIdx = EntryState.hole then
    StepResult.halt { s with crashed := true }
  else StepResult.cont (settleResponse m s)

/-- A stopped client: closed, or its data handler crashed on an uncaught
exception.  Once stopped no further data chunks are delivered (the socket
was ended, resp. the process died on `uncaughtException`). -/
def stoppedB (s : ClientState) : Bool :=
  s.isClosed || s.crashed

/-- `writeBufferedRequestsToSocket`: mark a drain in progress, take the
whole writer buffer (`finish` + `reset`) and hand it to `socket.write`;
the handed chunk joins the socket's queue of unacknowledged writes. -/
def writeBufferedRequestsToSocket (s : ClientState) : ClientState :=
  { s with writeInProgress := true
           inFlight := s.inFlight ++ [s.writerBuf]
           writerBuf := [] }

/-- The completion callback passed to `socket.write`: the oldest
unacknowledged chunk is now written; if the writer buffer filled up in the
meantime (`requestWriter.len > 0`) immediately drain it again, otherwise
clear `writeInProgress`. -/
def onWriteComplete (s : ClientState) : ClientState :=
  match s.inFlight with
  | [] => s
  | c :: rest =>
    let s1 := { s with written := s.written ++ c, inFlight := rest }
    if s1.writerBuf.length > 0 then writeBufferedRequestsToSocket s1
    else { s1 with writeInProgress := false }

/-- `writeOrBufferRequest`: append the encoded request to the shared writer
buffer (also recorded in the ghost `submitted` log); if a drain is in
progress return, else start a drain. -/
def writeOrBufferRequest (m : WireRequest) (s : ClientState) : ClientState :=
  let s1 := { s with writerBuf := s.writerBuf ++ [m]
                     submitted := s.submitted ++ [m] }
  if s1.writeInProgress then s1 else writeBufferedRequestsToSocket s1

/-- The `RedisRequest` message construction of `writeOrBufferRedisRequest`:
an array becomes a `transaction`, a `Command` becomes `singleCommand`, else
`scriptInvocation`; the route is assigned afterwards. -/
def buildRedisRequest (callbackIdx : Nat) (command : CommandArg)
    (route : Option redis_request.Routes) : redis_request.RedisRequest :=
  let message : redis_request.RedisRequest :=
    match command with
    | CommandArg.transaction cs =>
        { callbackIdx := callbackIdx, transaction := some { commands := cs } }
    | CommandArg.single c =>
        { callbackIdx := callbackIdx, singleCommand := some c }
    | CommandArg.script si =>
        { callbackIdx := callbackIdx, scriptInvocation := some si }
  { message with route := route }

/-- `writeOrBufferRedisRequest`: build the envelope and submit it through
`writeOrBufferRequest` (one `encodeDelimited` call, hence one appended
request). -/
def writeOrBufferRedisRequest (callbackIdx : Nat) (command : CommandArg)
    (route : Option redis_request.Routes) (s : ClientState) : ClientState :=
  writeOrBufferRequest (WireRequest.redis (buildRedisRequest callbackIdx command route)) s

/-- `createWritePromise`: when the client is closed it throws a
`ClosingError` synchronously — before any callback slot is allocated and
before anything is written (the state is returned untouched).  Otherwise it
pops (or mints) a callback index, records the pending promise pair in the
table and submits the request. -/
def createWritePromise (command : CommandArg) (route : Option redis_request.Routes)
    (s : ClientState) : Except ErrKind Nat × ClientState :=
  if s.isClosed then (Except.error ErrKind.ClosingError, s)
  else
    let callbackIndex := getCallbackIndex s
    let s1 := { s with available := s.available.tail
                       table := tableStore s.table callbackIndex EntryState.pending }
    (Except.ok callbackIndex, writeOrBufferRedisRequest callbackIndex command route s1)

/-- `RedisClusterClient.exec`: submit the transaction's ordered command
list (`transaction.commands`) with the optional single-node route through
`createWritePromise`. -/
def exec (transactionCommands : List redis_request.Command)
    (route : Option SingleNodeRoute) (s : ClientState) :
    Except ErrKind Nat × ClientState :=
  createWritePromise (CommandArg.transaction transactionCommands)
    (toProtobufRoute (route.map RoutesArg.single)) s

/-- `connectToServer`: store the connection promise pair directly at index
0 and submit the `ConnectionRequest` through `writeOrBufferRequest`. -/
def connectToServer (s : ClientState) : ClientState :=
  writeOrBufferRequest WireRequest.connection
    { s with table := tableStore s.table 0 EntryState.pending }

/-- One interleaving step of the client under proper operation: the
connection request is sent first on a fresh client; a user submission runs
`createWritePromise`; the server answers an outstanding (pending) request
with a non-closing frame, handled by the read loop's `settleResponse`; the
client is closed (by `close()`, a socket error, or a closing-error frame);
or a `socket.write` completion callback runs. -/
inductive Step : ClientState → ClientState → Prop where
  | connect (s : ClientState) : s.table = [] → Step s (connectToServer s)
  | submit (s : ClientState) (command : CommandArg)
      (route : Option redis_request.Routes) :
      Step s (createWritePromise command route s).2
  | respond (s : ClientState) (m : ResponseMsg) :
      tableGet s.table m.callbackIdx = EntryState.pending →
      m.closingError = none → Step s (settleResponse m s)
  | closing (s : ClientState) (msg : Option String) : Step s (close msg s)
  | writeDone (s : ClientState) : Step s (onWriteComplete s)

/-- The states a client can reach from construction (all fields at their
initial values) under `Step`. -/
inductive Reachable : ClientState → Prop where
  | init : Reachable {}
  | step {s t : ClientState} : Reachable s → Step s t → Reachable t

/-! ## The length-delimited wire codec of the read path -/

/-- Protobuf base-128 varint encoding of a natural number (the length
prefix written by `encodeDelimited` / read by `decodeDelimited`). -/
def varintEncode (n : Nat) : List Nat :=
  if h : n < 128 then [n]
  else (n % 128 + 128) :: varintEncode (n / 128)
decreasing_by exact Nat.div_lt_self (by omega) (by omega)

/-- Varint parse: `none` when the buffer ends inside the varint (the
reader raises `RangeError`). -/
def parseVarint : List Nat → Option (Nat × List Nat)
  | [] => none
  | b :: rest =>
    if b < 128 then some (b, rest)
    else (parseVarint rest).map fun p => (b - 128 + 128 * p.1, p.2)

/-- Field serializer: an optional value is a presence marker followed by
the payload. -/
def encodeOpt (enc : α → List Nat) : Option α → List Nat
  | none => [0]
  | some a => 1 :: enc a

/-- Field parser matching `encodeOpt`. -/
def decodeOpt (dec : List Nat → Option (α × List Nat)) :
    List Nat → Option (Option α × List Nat)
  | [] => none
  | 0 :: rest => some (none, rest)
  | 1 :: rest => (dec rest).map fun p => (some p.1, p.2)
  | _ => none

/-- String serializer: length prefix, then the character codes. -/
def encodeString (s : String) : List Nat :=
  varintEncode s.length ++ s.data.map Char.toNat

/-- String parser matching `encodeString`. -/
def decodeString (b : List Nat) : Option (String × List Nat) :=
  match parseVarint b with
  | none => none
  | some (n, rest) =>
    if n ≤ rest.length
    then some (String.mk ((rest.take n).map Char.ofNat), rest.drop n)
    else none

/-- Numeric code of a `RequestErrorType` (proto enum value). -/
def RequestErrorType.toCode : RequestErrorType → Nat
  | RequestErrorType.Unspecified => 0
  | RequestErrorType.ExecAbort => 1
  | RequestErrorType.Timeout => 2
  | RequestErrorType.Disconnect => 3

/-- Enum parse for `RequestErrorType`. -/
def RequestErrorType.ofCode : Nat → Option RequestErrorType
  | 0 => some RequestErrorType.Unspecified
  | 1 => some RequestErrorType.ExecAbort
  | 2 => some RequestErrorType.Timeout
  | 3 => some RequestErrorType.Disconnect
  | _ => none

/-- Enum serializer for `RequestErrorType`. -/
def encodeErrType (t : RequestErrorType) : List Nat :=
  [t.toCode]

/-- Enum parser matching `encodeErrType`. -/
def decodeErrType : List Nat → Option (RequestErrorType × List Nat)
  | [] => none
  | n :: rest => (RequestErrorType.ofCode n).map fun t => (t, rest)

/-- Serializer for the `RequestError` sub-message. -/
def encodeReqErr (re : RequestErrorMsg) : List Nat :=
  encodeOpt encodeErrType re.type ++ encodeOpt encodeString re.message

/-- Parser matching `encodeReqErr`. -/
def decodeReqErr (b : List Nat) : Option (RequestErrorMsg × List Nat) :=
  match decodeOpt decodeErrType b with
  | none => none
  | some (t, r1) =>
    match decodeOpt decodeString r1 with
    | none => none
    | some (msg, r2) => some ({ type := t, message := msg }, r2)

/-- Serializer for the constant-response enum (`OK`). -/
def encodeConstResp (c : ConstantResponse) : List Nat :=
  match c with
  | ConstantResponse.OK => [0]

/-- Parser matching `encodeConstResp`. -/
def decodeConstResp : List Nat → Option (ConstantResponse × List Nat)
  | 0 :: rest => some (ConstantResponse.OK, rest)
  | _ => none

/-- The payload serialization of a `Response` frame: the five fields read
by `handleReadData`, in a fixed order. -/
def encodeBody (m : ResponseMsg) : List Nat :=
  varintEncode m.callbackIdx ++
  encodeOpt encodeString m.closingError ++
  encodeOpt encodeReqErr m.requestError ++
  encodeOpt varintEncode m.respPointer ++
  encodeOpt encodeConstResp m.constantResponse

/-- Parser matching `encodeBody`; the message must occupy the whole
payload, anything else is a malformed message. -/
def decodeBody (b : List Nat) : Option ResponseMsg :=
  match parseVarint b with
  | none => none
  | some (idx, r1) =>
    match decodeOpt decodeString r1 with
    | none => none
    | some (ce, r2) =>
      match decodeOpt decodeReqErr r2 with
      | none => none
      | some (re, r3) =>
        match decodeOpt parseVarint r3 with
        | none => none
        | some (p, r4) =>
          match decodeOpt decodeConstResp r4 with
          | none => none
          | some (cr, r5) =>
            if r5 = [] then
              some { callbackIdx := idx, closingError := ce, requestError := re
                     respPointer := p, constantResponse := cr }
            else none

/-- Result of `Response.decodeDelimited` on a buffer: a complete frame plus
the unread rest; `needMoreData` when the buffer ends inside the length
prefix or the payload (protobufjs raises `RangeError`); `malformed` when
the payload does not decode (any other thrown error). -/
inductive DecodeResult where
  | frame (m : ResponseMsg) (rest : List Nat)
  | needMoreData
  | malformed
deriving DecidableEq

/-- `Response.decodeDelimited`: read the varint length, then the payload of
exactly that many bytes. -/
def decodeDelimited (b : List Nat) : DecodeResult :=
  match parseVarint b with
  | none => DecodeResult.needMoreData
  | some (len, r) =>
    if len ≤ r.length then
      match decodeBody (r.take len) with
      | some m => DecodeResult.frame m (r.drop len)
      | none => DecodeResult.malformed
    else DecodeResult.needMoreData

/-- A complete encoded frame: varint payload length, then the payload. -/
def encodeFrame (m : ResponseMsg) : List Nat :=
  varintEncode (encodeBody m).length ++ encodeBody m

/-- The concatenated byte stream of a sequence of response frames. -/
def encodeStream (frames : List ResponseMsg) : List Nat :=
  (frames.map encodeFrame).flatten

/-- A varint parse consumes at least one element. -/
theorem parseVarint_length : ∀ {b : List Nat} {v : Nat} {r : List Nat},
    parseVarint b = some (v, r) → r.length < b.length := by
  intro b
  induction b with
  | nil => intro v r h; simp [parseVarint] at h
  | cons x xs ih =>
    intro v r h
    by_cases hx : x < 128
    · simp only [parseVarint, if_pos hx, Option.some.injEq, Prod.mk.injEq] at h
      obtain ⟨-, h2⟩ := h
      subst h2
      simp
    · simp only [parseVarint, if_neg hx, Option.map_eq_some'] at h
      obtain ⟨⟨v1, r1⟩, h1, h2⟩ := h
      have hlen := ih h1
      have h3 : r1 = r := congrArg Prod.snd h2
      subst h3
      simp only [List.length_cons]
      omega

/-- Decoding a complete frame strictly consumes input. -/
theorem decodeDelimited_length {b : List Nat} {m : ResponseMsg} {rest : List Nat}
    (h : decodeDelimited b = DecodeResult.frame m rest) : rest.length < b.length := by
  unfold decodeDelimited at h
  cases hv : parseVarint b with
  | none => rw [hv] at h; simp at h
  | some p =>
    obtain ⟨len, r⟩ := p
    rw [hv] at h
    by_cases hl : len ≤ r.length
    · simp only [hl, if_true] at h
      cases hb : decodeBody (r.take len) with
      | none => rw [hb] at h; simp at h
      | some mm =>
        rw [hb] at h
        simp at h
        have hr : rest = r.drop len := h.2.symm
        have h1 : r.length < b.length := parseVarint_length hv
        have h2 : (r.drop len).length ≤ r.length := by
          simp [List.length_drop]
        rw [hr]
        omega
    · simp [hl] at h

/-- The frame loop of `handleReadData`, acting on the concatenation of the
buffered leftover and the incoming chunk: decode frames one after the
other; an incomplete frame is saved in `rem` (`remainingReadData`) for the
next chunk; a malformed frame closes the client with the decode-failure
message; a closing-error frame or an unknown callback index leaves the
loop by `handleMessage`'s `halt` (in both halt cases `remainingReadData`
keeps its prior value, exactly as in the source, where the early `return`
skips both assignments). -/
def processBuf (s : ClientState) (buf : List Nat) : ClientState :=
  match buf with
  | [] => { s with rem := [] }
  | b :: bs =>
    match hd : decodeDelimited (b :: bs) with
    | DecodeResult.needMoreData => { s with rem := b :: bs }
    | DecodeResult.malformed => close (some "Failed to decode the response") s
    | DecodeResult.frame m rest =>
      match handleMessage s m with
      | StepResult.halt s1 => s1
      | StepResult.cont s1 => processBuf s1 rest
termination_by buf.length
decreasing_by
  have := decodeDelimited_length hd
  simpa using this

/-- `handleReadData`: prepend the buffered leftover to the incoming chunk
and run the frame loop. -/
def handleReadData (s : ClientState) (data : List Nat) : ClientState :=
  processBuf s (s.rem ++ data)

/-- Delivery of a data chunk to the client: a stopped client receives no
further chunks (its socket was ended, resp. the process died), otherwise
the `data` listener runs `handleReadData`. -/
def deliverData (s : ClientState) (data : List Nat) : ClientState :=
  if stoppedB s then s else handleReadData s data

/-- Feeding a sequence of data chunks one at a time. -/
def feedChunks (s : ClientState) (chunks : List (List Nat)) : ClientState :=
  chunks.foldl deliverData s

/-- Reference semantics: handle the decoded frames themselves, one at a
time, stopping once the client stops. -/
def deliverFrame (s : ClientState) (m : ResponseMsg) : ClientState :=
  if stoppedB s then s else (handleMessage s m).state

/-- Run the reference semantics over a frame sequence. -/
def framesRun (s : ClientState) (frames : List ResponseMsg) : ClientState :=
  frames.foldl deliverFrame s

/-- All observable components of a client state: everything except the
internal `remainingReadData` buffer. -/
def ClientState.obs (s : ClientState) :
    List EntryState × List Nat × List WireRequest × Bool ×
    List (List WireRequest) × List WireRequest × Bool × Bool × Bool ×
    List (Nat × Outcome) × List WireRequest :=
  (s.table, s.available, s.writerBuf, s.writeInProgress, s.inFlight,
   s.written, s.isClosed, s.socketEnded, s.crashed, s.events, s.submitted)

/-! ## Helper lemmas about the pending table -/

/-- Reading past the end of the table gives `undefined`. -/
theorem tableGet_eq_hole_of_le {t : List EntryState} {i : Nat}
    (h : t.length ≤ i) : tableGet t i = EntryState.hole := by
  unfold tableGet
  rw [List.getD_eq_getElem?_getD, List.getElem?_eq_none h]
  rfl

/-- A stored pair (pending or settled) sits inside the array bounds. -/
theorem lt_length_of_tableGet_ne_hole {t : List EntryState} {i : Nat}
    (h : tableGet t i ≠ EntryState.hole) : i < t.length := by
  by_contra hge
  exact h (tableGet_eq_hole_of_le (by omega))

/-- Reading back an in-bounds write. -/
theorem tableGet_set_self {t : List EntryState} {i : Nat} (e : EntryState)
    (h : i < t.length) : tableGet (t.set i e) i = e := by
  unfold tableGet
  rw [List.getD_eq_getElem?_getD, List.getElem?_set_self h]
  rfl

/-- A write does not move other slots. -/
theorem tableGet_set_ne {t : List EntryState} {i j : Nat} (e : EntryState)
    (h : i ≠ j) : tableGet (t.set i e) j = tableGet t j := by
  unfold tableGet
  rw [List.getD_eq_getElem?_getD, List.getD_eq_getElem?_getD,
    List.getElem?_set_ne h]

/-- Mapping a hole-preserving function over the table commutes with reads. -/
theorem tableGet_map {f : EntryState → EntryState}
    (hf : f EntryState.hole = EntryState.hole) (t : List EntryState) (i : Nat) :
    tableGet (t.map f) i = f (tableGet t i) := by
  unfold tableGet
  rw [List.getD_eq_getElem?_getD, List.getD_eq_getElem?_getD, List.getElem?_map]
  cases t[i]? with
  | none => simpa using hf.symm
  | some e => rfl

/-- Appending one fresh slot at the end of the table (`tableStore` at index
`length`). -/
theorem tableStore_append {t : List EntryState} (e : EntryState) :
    tableStore t t.length e = t ++ [e] := by
  unfold tableStore
  simp

/-- Submitting a request appends exactly that request to the ghost
submission log, whether or not a drain was in progress. -/
theorem writeOrBufferRequest_submitted (m : WireRequest) (s : ClientState) :
    (writeOrBufferRequest m s).submitted = s.submitted ++ [m] := by
  by_cases h : s.writeInProgress
  · simp [writeOrBufferRequest, writeBufferedRequestsToSocket, h]
  · simp [writeOrBufferRequest, writeBufferedRequestsToSocket, h]

/-! ## Claim theorems about routing and the per-frame dispatch -/

/-- C6 (code bug): `toProtobufRoute` translates `undefined`, the three
simple routes and the two slot-key routes exactly as the claim states, but
in both slot-id branches it assigns the created `SlotIdRoute` object to the
`slotKeyRoute` field of the `Routes` message (`Sum.inr`) and leaves the
slot-id route field unset, instead of storing the `SlotIdRoute` in the
slot-id route field. -/
theorem toProtobufRoute_branches :
    toProtobufRoute none = none ∧
    toProtobufRoute (some RoutesArg.allPrimaries) =
      some { simpleRoutes := some redis_request.SimpleRoutes.AllPrimaries } ∧
    toProtobufRoute (some RoutesArg.allNodes) =
      some { simpleRoutes := some redis_request.SimpleRoutes.AllNodes } ∧
    toProtobufRoute (some (RoutesArg.single SingleNodeRoute.randomNode)) =
      some { simpleRoutes := some redis_request.SimpleRoutes.Random } ∧
    (∀ key : String,
      toProtobufRoute (some (RoutesArg.single (SingleNodeRoute.bySlotKey
          (SlotKeyTypes.primarySlotKey key)))) =
        some { slotKeyRoute := some (Sum.inl
          { slotType := redis_request.SlotTypes.Primary, slotKey := key }) }) ∧
    (∀ key : String,
      toProtobufRoute (some (RoutesArg.single (SingleNodeRoute.bySlotKey
          (SlotKeyTypes.replicaSlotKey key)))) =
        some { slotKeyRoute := some (Sum.inl
          { slotType := redis_request.SlotTypes.Replica, slotKey := key }) }) ∧
    (∀ id : Nat,
      toProtobufRoute (some (RoutesArg.single (SingleNodeRoute.bySlotId
          (SlotIdTypes.primarySlotId id)))) =
        some { slotKeyRoute := some (Sum.inr
                 { slotType := redis_request.SlotTypes.Primary, slotId := id })
               slotIdRoute := none }) ∧
    (∀ id : Nat,
      toProtobufRoute (some (RoutesArg.single (SingleNodeRoute.bySlotId
          (SlotIdTypes.replicaSlotId id)))) =
        some { slotKeyRoute := some (Sum.inr
                 { slotType := redis_request.SlotTypes.Replica, slotId := id })
               slotIdRoute := none }) :=
  ⟨rfl, rfl, rfl, rfl, fun _ => rfl, fun _ => rfl, fun _ => rfl, fun _ => rfl⟩

/-- C3 (counterexample): on a fresh client (empty pending table) a frame
carrying callback index 0 — for which no entry is registered — does *not*
close the connection as the claim requires: the client is left unclosed,
its socket not ended; the handler crashes on the uncaught `TypeError`
thrown by destructuring `undefined`. -/
theorem unknown_callback_not_closed :
    (handleMessage {} {}).state.isClosed = false ∧
    (handleMessage {} {}).state.socketEnded = false ∧
    (handleMessage {} {}).state.crashed = true :=
  ⟨rfl, rfl, rfl⟩

/-- C3 (amended): a response frame whose `callback_idx` has no registered
entry makes `handleReadData` throw a `TypeError` (destructuring the absent
`[resolve, reject]` pair) which escapes the `data` handler uncaught; the
connection is *not* closed — the returned state is the input state with
only the `crashed` flag set. -/
theorem unknown_callback_crashes (s : ClientState) (m : ResponseMsg)
    (hm : m.closingError = none)
    (hh : tableGet s.table m.callbackIdx = EntryState.hole) :
    handleMessage s m = StepResult.halt { s with crashed := true } := by
  simp [handleMessage, hm, hh]

/-- Witness for `unknown_callback_crashes` at the fresh client and the
default frame. -/
theorem unknown_callback_crashes_witness :
    handleMessage {} {} = StepResult.halt { ({} : ClientState) with crashed := true } :=
  unknown_callback_crashes {} {} rfl rfl

/-- C4: `close` marks the client closed, ends the socket, rejects every
still-pending promise exactly once with a `ClosingError` carrying the
optional message (already-settled promises keep their first outcome), and
afterwards any submission through `createWritePromise` — hence every public
command method, each of which just wraps `createWritePromise` — throws a
`ClosingError` synchronously, leaving the state untouched: no callback slot
is allocated and nothing is written. -/
theorem close_rejects_and_blocks (s : ClientState) (msg : Option String) :
    (close msg s).isClosed = true ∧
    (close msg s).socketEnded = true ∧
    (∀ i, tableGet s.table i = EntryState.pending →
      tableGet (close msg s).table i =
        EntryState.settled (Outcome.rejected ErrKind.ClosingError msg)) ∧
    (∀ i o, tableGet s.table i = EntryState.settled o →
      tableGet (close msg s).table i = EntryState.settled o) ∧
    (∀ command route s2, s2.isClosed = true →
      createWritePromise command route s2 = (Except.error ErrKind.ClosingError, s2)) := by
  refine ⟨rfl, rfl, ?_, ?_, ?_⟩
  · intro i hp
    show tableGet (s.table.map _) i = _
    rw [tableGet_map rfl, hp]
    rfl
  · intro i o hs
    show tableGet (s.table.map _) i = _
    rw [tableGet_map rfl, hs]
    rfl
  · intro command route s2 h
    simp [createWritePromise, h]

/-- Witness for `close_rejects_and_blocks`: closing a client with one
pending entry rejects it with the `ClosingError`, and a submission to the
closed client is refused with the state unchanged. -/
theorem close_rejects_and_blocks_witness :
    tableGet (close none { table := [EntryState.pending] }).table 0 =
      EntryState.settled (Outcome.rejected ErrKind.ClosingError none) ∧
    createWritePromise (CommandArg.single { id := 0 }) none
        (close none { table := [EntryState.pending] }) =
      (Except.error ErrKind.ClosingError, close none { table := [EntryState.pending] }) :=
  ⟨(close_rejects_and_blocks { table := [EntryState.pending] } none).2.2.1 0 rfl,
   (close_rejects_and_blocks { table := [EntryState.pending] } none).2.2.2.2
     (CommandArg.single { id := 0 }) none _ rfl⟩

/-- C7: `getRequestErrorClass` maps `Disconnect` to `ConnectionError`,
`ExecAbort` to `ExecAbortError`, `Timeout` to `TimeoutError`, and
`Unspecified` or an absent kind to plain `RequestError`; and a frame
carrying a `requestError` rejects the pending promise at its
`callback_idx` with exactly that class, the server's message passed
through unchanged. -/
theorem request_error_rejection (s : ClientState) (m : ResponseMsg)
    (re : RequestErrorMsg)
    (hp : tableGet s.table m.callbackIdx = EntryState.pending)
    (hc : m.closingError = none)
    (he : m.requestError = some re) :
    getRequestErrorKind (some RequestErrorType.Disconnect) = ErrKind.ConnectionError ∧
    getRequestErrorKind (some RequestErrorType.ExecAbort) = ErrKind.ExecAbortError ∧
    getRequestErrorKind (some RequestErrorType.Timeout) = ErrKind.TimeoutError ∧
    getRequestErrorKind (some RequestErrorType.Unspecified) = ErrKind.RequestError ∧
    getRequestErrorKind none = ErrKind.RequestError ∧
    handleMessage s m = StepResult.cont (settleResponse m s) ∧
    tableGet (settleResponse m s).table m.callbackIdx =
      EntryState.settled (Outcome.rejected (getRequestErrorKind re.type) re.message) := by
  have hlt : m.callbackIdx < s.table.length :=
    lt_length_of_tableGet_ne_hole (by rw [hp]; simp)
  refine ⟨rfl, rfl, rfl, rfl, rfl, ?_, ?_⟩
  · simp [handleMessage, hc, hp]
  · simp only [settleResponse, hp]
    rw [tableGet_set_self _ hlt]
    simp [outcomeOf, he]

/-- Witness for `request_error_rejection`: a `Timeout` request error on a
client with one pending entry rejects it with `TimeoutError`. -/
theorem request_error_rejection_witness :
    tableGet (settleResponse
        { requestError := some { type := some RequestErrorType.Timeout } }
        { table := [EntryState.pending] }).table 0 =
      EntryState.settled (Outcome.rejected ErrKind.TimeoutError none) :=
  (request_error_rejection { table := [EntryState.pending] }
    { requestError := some { type := some RequestErrorType.Timeout } }
    { type := some RequestErrorType.Timeout } rfl rfl rfl).2.2.2.2.2.2

/-- C8: a frame carrying a `closing_error` closes the whole client via
`close`: the handler leaves the read loop with the closed state, in which
`isClosed` holds, the socket is ended, and every still-pending promise is
rejected with a `ClosingError` carrying exactly the frame's message. -/
theorem closing_error_closes_client (s : ClientState) (m : ResponseMsg)
    (msg : String) (h : m.closingError = some msg) :
    handleMessage s m = StepResult.halt (close (some msg) s) ∧
    (close (some msg) s).isClosed = true ∧
    (close (some msg) s).socketEnded = true ∧
    (∀ i, tableGet s.table i = EntryState.pending →
      tableGet (close (some msg) s).table i =
        EntryState.settled (Outcome.rejected ErrKind.ClosingError (some msg))) := by
  refine ⟨by simp [handleMessage, h], rfl, rfl, ?_⟩
  intro i hp
  show tableGet (s.table.map _) i = _
  rw [tableGet_map rfl, hp]
  rfl

/-- Witness for `closing_error_closes_client` on a client with one pending
entry. -/
theorem closing_error_closes_client_witness :
    handleMessage { table := [EntryState.pending] } { closingError := some "server going away" } =
      StepResult.halt (close (some "server going away") { table := [EntryState.pending] }) ∧
    tableGet (close (some "server going away")
        ({ table := [EntryState.pending] } : ClientState)).table 0 =
      EntryState.settled
        (Outcome.rejected ErrKind.ClosingError (some "server going away")) :=
  ⟨(closing_error_closes_client { table := [EntryState.pending] }
      { closingError := some "server going away" } "server going away" rfl).1,
   (closing_error_closes_client { table := [EntryState.pending] }
      { closingError := some "server going away" } "server going away" rfl).2.2.2 0 rfl⟩

/-- C10: a frame for a registered pending callback with no closing error,
no request error, no `respPointer`, and whose constant response is not
`OK`, resolves the promise with `null` and pushes the callback index back
onto the free-slot stack. -/
theorem default_frame_resolves_null (s : ClientState) (m : ResponseMsg)
    (hp : tableGet s.table m.callbackIdx = EntryState.pending)
    (h1 : m.closingError = none) (h2 : m.requestError = none)
    (h3 : m.respPointer = none)
    (h4 : m.constantResponse ≠ some ConstantResponse.OK) :
    handleMessage s m = StepResult.cont (settleResponse m s) ∧
    tableGet (settleResponse m s).table m.callbackIdx =
      EntryState.settled Outcome.resolvedNull ∧
    (settleResponse m s).available = m.callbackIdx :: s.available := by
  have hlt : m.callbackIdx < s.table.length :=
    lt_length_of_tableGet_ne_hole (by rw [hp]; simp)
  refine ⟨by simp [handleMessage, h1, hp], ?_, ?_⟩
  · simp only [settleResponse, hp]
    rw [tableGet_set_self _ hlt]
    simp [outcomeOf, h2, h3, h4]
  · simp [settleResponse, hp]

/-- Witness for `default_frame_resolves_null` at a client with one pending
entry and the all-defaults frame. -/
theorem default_frame_resolves_null_witness :
    tableGet (settleResponse {} { table := [EntryState.pending] }).table 0 =
      EntryState.settled Outcome.resolvedNull ∧
    (settleResponse {} ({ table := [EntryState.pending] } : ClientState)).available = [0] :=
  ⟨(default_frame_resolves_null { table := [EntryState.pending] } {} rfl rfl rfl rfl
      (by simp)).2.1,
   (default_frame_resolves_null { table := [EntryState.pending] } {} rfl rfl rfl rfl
      (by simp)).2.2⟩

/-- C9: `exec` submits the transaction's ordered command list as a single
`RedisRequest` under one freshly allocated callback index: the envelope
carries a `Transaction` message with the commands in submitted order (and
neither a single command nor a script invocation), the optional
single-node route is attached, and exactly one request is appended to the
write pipeline. -/
theorem exec_single_transaction_request (cs : List redis_request.Command)
    (route : Option SingleNodeRoute) (s : ClientState)
    (h : s.isClosed = false) :
    (exec cs route s).1 = Except.ok (getCallbackIndex s) ∧
    buildRedisRequest (getCallbackIndex s) (CommandArg.transaction cs)
        (toProtobufRoute (route.map RoutesArg.single)) =
      { callbackIdx := getCallbackIndex s
        singleCommand := none
        transaction := some { commands := cs }
        scriptInvocation := none
        route := toProtobufRoute (route.map RoutesArg.single) } ∧
    (exec cs route s).2.submitted = s.submitted ++
      [WireRequest.redis (buildRedisRequest (getCallbackIndex s)
        (CommandArg.transaction cs) (toProtobufRoute (route.map RoutesArg.single)))] := by
  refine ⟨by simp [exec, createWritePromise, h], rfl, ?_⟩
  simp [exec, createWritePromise, h, writeOrBufferRedisRequest,
    writeOrBufferRequest_submitted]

/-- Witness for `exec_single_transaction_request`: a two-command
transaction with a random-node route on a fresh client. -/
theorem exec_single_transaction_request_witness :
    (exec [{ id := 1 }, { id := 2 }] (some SingleNodeRoute.randomNode) {}).2.submitted =
      [WireRequest.redis
        { callbackIdx := 0
          transaction := some { commands := [{ id := 1 }, { id := 2 }] }
          route := some { simpleRoutes := some redis_request.SimpleRoutes.Random } }] :=
  (exec_single_transaction_request [{ id := 1 }, { id := 2 }]
    (some SingleNodeRoute.randomNode) {} rfl).2.2

/-! ## The client invariant: callback-slot uniqueness and the write pipeline -/

/-- `settleEntry` never produces a pending entry. -/
theorem settleEntry_ne_pending (o : Outcome) (e : EntryState) :
    settleEntry o e ≠ EntryState.pending := by
  cases e <;> simp [settleEntry]

/-- `settleEntry` maps stored pairs to stored pairs. -/
theorem settleEntry_ne_hole (o : Outcome) {e : EntryState}
    (h : e ≠ EntryState.hole) : settleEntry o e ≠ EntryState.hole := by
  cases e <;> simp_all [settleEntry]

/-- Reading an appended table below the old length. -/
theorem tableGet_append_lt {t t2 : List EntryState} {i : Nat}
    (h : i < t.length) : tableGet (t ++ t2) i = tableGet t i := by
  unfold tableGet
  rw [List.getD_eq_getElem?_getD, List.getD_eq_getElem?_getD,
    List.getElem?_append_left h]

/-- Reading the freshly appended slot. -/
theorem tableGet_append_self {t : List EntryState} (e : EntryState) :
    tableGet (t ++ [e]) t.length = e := by
  unfold tableGet
  rw [List.getD_eq_getElem?_getD, List.getElem?_append_right (Nat.le_refl _)]
  simp

/-- The table half of the client invariant: the free-slot stack holds no
duplicates, only freed (non-pending) in-bounds indices, and the table is
dense (no holes below its length). -/
def TInv (s : ClientState) : Prop :=
  s.available.Nodup ∧
  (∀ i ∈ s.available, tableGet s.table i ≠ EntryState.pending) ∧
  (∀ i ∈ s.available, i < s.table.length) ∧
  (∀ i, i < s.table.length → tableGet s.table i ≠ EntryState.hole)

/-- The write half of the client invariant: `writeInProgress` tracks
whether a `socket.write` is outstanding, at most one drain is in progress,
and the socket data already written, the chunk in flight and the writer
buffer together are exactly the submitted requests, in order. -/
def WInv (s : ClientState) : Prop :=
  (s.writeInProgress = true ↔ s.inFlight ≠ []) ∧
  s.inFlight.length ≤ 1 ∧
  s.written ++ s.inFlight.flatten ++ s.writerBuf = s.submitted

/-- The full client invariant. -/
def ClientInv (s : ClientState) : Prop := TInv s ∧ WInv s

/-- `TInv` only mentions the table and the free-slot stack. -/
theorem TInv_congr {s t : ClientState} (h1 : t.table = s.table)
    (h2 : t.available = s.available) (h : TInv s) : TInv t := by
  unfold TInv at *
  rw [h1, h2]
  exact h

/-- `WInv` only mentions the write-path fields. -/
theorem WInv_congr {s t : ClientState} (h1 : t.writeInProgress = s.writeInProgress)
    (h2 : t.inFlight = s.inFlight) (h3 : t.written = s.written)
    (h4 : t.writerBuf = s.writerBuf) (h5 : t.submitted = s.submitted)
    (h : WInv s) : WInv t := by
  unfold WInv at *
  rw [h1, h2, h3, h4, h5]
  exact h

/-- `writeOrBufferRequest` leaves the table untouched. -/
theorem writeOrBufferRequest_table (m : WireRequest) (s : ClientState) :
    (writeOrBufferRequest m s).table = s.table := by
  by_cases h : s.writeInProgress
  · simp [writeOrBufferRequest, writeBufferedRequestsToSocket, h]
  · simp [writeOrBufferRequest, writeBufferedRequestsToSocket, h]

/-- `writeOrBufferRequest` leaves the free-slot stack untouched. -/
theorem writeOrBufferRequest_available (m : WireRequest) (s : ClientState) :
    (writeOrBufferRequest m s).available = s.available := by
  by_cases h : s.writeInProgress
  · simp [writeOrBufferRequest, writeBufferedRequestsToSocket, h]
  · simp [writeOrBufferRequest, writeBufferedRequestsToSocket, h]

/-- `onWriteComplete` leaves the table untouched. -/
theorem onWriteComplete_table (s : ClientState) :
    (onWriteComplete s).table = s.table := by
  unfold onWriteComplete
  cases s.inFlight with
  | nil => rfl
  | cons c rest =>
    by_cases h : s.writerBuf.length > 0
    · simp [h, writeBufferedRequestsToSocket]
    · simp [h]

/-- `onWriteComplete` leaves the free-slot stack untouched. -/
theorem onWriteComplete_available (s : ClientState) :
    (onWriteComplete s).available = s.available := by
  unfold onWriteComplete
  cases s.inFlight with
  | nil => rfl
  | cons c rest =>
    by_cases h : s.writerBuf.length > 0
    · simp [h, writeBufferedRequestsToSocket]
    · simp [h]

/-- Appending a request preserves the write invariant: the appended request
joins the tail of the pipeline, and a drain starts only when none is in
progress. -/
theorem WInv_writeOrBufferRequest (m : WireRequest) {s : ClientState}
    (h : WInv s) : WInv (writeOrBufferRequest m s) := by
  obtain ⟨hw, hone, hpipe⟩ := h
  by_cases hip : s.writeInProgress = true
  · have heq : writeOrBufferRequest m s =
        { s with writerBuf := s.writerBuf ++ [m], submitted := s.submitted ++ [m] } := by
      simp [writeOrBufferRequest, hip]
    rw [heq]
    exact ⟨hw, hone, by simp only [← hpipe, List.append_assoc]⟩
  · have hif : s.inFlight = [] := by
      rcases hni : s.inFlight with _ | ⟨c, rest⟩
      · rfl
      · exact absurd (hw.mpr (by rw [hni]; simp)) hip
    have heq : writeOrBufferRequest m s =
        { s with writerBuf := []
                 writeInProgress := true
                 inFlight := s.inFlight ++ [s.writerBuf ++ [m]]
                 submitted := s.submitted ++ [m] } := by
      simp [writeOrBufferRequest, writeBufferedRequestsToSocket, hip]
    rw [heq]
    refine ⟨by simp, by simp [hif], ?_⟩
    rw [hif] at hpipe ⊢
    simp only [List.flatten_nil, List.append_nil, List.nil_append] at hpipe
    simp only [List.nil_append, List.flatten_cons, List.flatten_nil,
      List.append_nil, ← hpipe, List.append_assoc]

/-- A write-completion callback preserves the write invariant. -/
theorem WInv_onWriteComplete {s : ClientState} (h : WInv s) :
    WInv (onWriteComplete s) := by
  obtain ⟨hw, hone, hpipe⟩ := h
  rcases hif : s.inFlight with _ | ⟨c, rest⟩
  · have heq : onWriteComplete s = s := by
      unfold onWriteComplete
      rw [hif]
    rw [heq]
    exact ⟨hw, hone, hpipe⟩
  · have hrest : rest = [] := by
      rw [hif] at hone
      simp only [List.length_cons] at hone
      exact List.eq_nil_of_length_eq_zero (by omega)
    subst hrest
    rw [hif] at hpipe
    simp only [List.flatten_cons, List.flatten_nil, List.append_nil] at hpipe
    by_cases hb : s.writerBuf.length > 0
    · have heq : onWriteComplete s =
          { s with written := s.written ++ c
                   writeInProgress := true
                   inFlight := [s.writerBuf]
                   writerBuf := [] } := by
        unfold onWriteComplete
        rw [hif]
        simp [hb, writeBufferedRequestsToSocket]
      rw [heq]
      refine ⟨by simp, by simp, ?_⟩
      simp only [List.flatten_cons, List.flatten_nil, List.append_nil,
        ← hpipe, List.append_assoc]
    · have heq : onWriteComplete s =
          { s with written := s.written ++ c
                   inFlight := []
                   writeInProgress := false } := by
        unfold onWriteComplete
        rw [hif]
        simp [hb]
      rw [heq]
      refine ⟨by simp, by simp, ?_⟩
      simp only [List.flatten_nil, List.append_nil, ← hpipe, List.append_assoc]

/-- `settleResponse` touches only the table, the free-slot stack and the
event log, never the write path. -/
theorem settleResponse_writeFields (m : ResponseMsg) (s : ClientState) :
    (settleResponse m s).writeInProgress = s.writeInProgress ∧
    (settleResponse m s).inFlight = s.inFlight ∧
    (settleResponse m s).written = s.written ∧
    (settleResponse m s).writerBuf = s.writerBuf ∧
    (settleResponse m s).submitted = s.submitted := by
  unfold settleResponse
  dsimp only
  split
  · exact ⟨rfl, rfl, rfl, rfl, rfl⟩
  · exact ⟨rfl, rfl, rfl, rfl, rfl⟩

/-- `settleResponse` recycles the callback index by pushing it onto the
free-slot stack, so it is the next index handed out (last freed, first
reused). -/
theorem getCallbackIndex_settleResponse (m : ResponseMsg) (s : ClientState) :
    getCallbackIndex (settleResponse m s) = m.callbackIdx := by
  unfold settleResponse getCallbackIndex
  dsimp only
  split
  · rfl
  · rfl

/-- Settling an outstanding response preserves the table invariant: the
settled index joins the stack exactly once, as a freed index. -/
theorem TInv_settleResponse {s : ClientState} (m : ResponseMsg) (ht : TInv s)
    (hp : tableGet s.table m.callbackIdx = EntryState.pending) :
    TInv (settleResponse m s) := by
  obtain ⟨hnodup, hfreed, hbounded, hdense⟩ := ht
  have hlt : m.callbackIdx < s.table.length :=
    lt_length_of_tableGet_ne_hole (by rw [hp]; simp)
  have hnotmem : m.callbackIdx ∉ s.available := fun hmem => hfreed _ hmem hp
  have heq : settleResponse m s =
      { s with available := m.callbackIdx :: s.available
               table := s.table.set m.callbackIdx (EntryState.settled (outcomeOf m))
               events := s.events ++ [(m.callbackIdx, outcomeOf m)] } := by
    unfold settleResponse
    dsimp only
    rw [hp]
  rw [heq]
  refine ⟨List.nodup_cons.mpr ⟨hnotmem, hnodup⟩, ?_, ?_, ?_⟩
  · intro i hi
    show tableGet (s.table.set m.callbackIdx
      (EntryState.settled (outcomeOf m))) i ≠ EntryState.pending
    rcases List.mem_cons.mp hi with rfl | hi2
    · rw [tableGet_set_self _ hlt]
      simp
    · have hne : m.callbackIdx ≠ i := fun he => hnotmem (he ▸ hi2)
      rw [tableGet_set_ne _ hne]
      exact hfreed i hi2
  · intro i hi
    show i < (s.table.set m.callbackIdx (EntryState.settled (outcomeOf m))).length
    rw [List.length_set]
    rcases List.mem_cons.mp hi with rfl | hi2
    · exact hlt
    · exact hbounded i hi2
  · intro i hi
    have hi2 : i < s.table.length := by
      have : i < (s.table.set m.callbackIdx
          (EntryState.settled (outcomeOf m))).length := hi
      rwa [List.length_set] at this
    show tableGet (s.table.set m.callbackIdx
      (EntryState.settled (outcomeOf m))) i ≠ EntryState.hole
    by_cases hie : m.callbackIdx = i
    · subst hie
      rw [tableGet_set_self _ hlt]
      simp
    · rw [tableGet_set_ne _ hie]
      exact hdense i hi2

/-- `close` preserves the table invariant: pending entries become settled,
holes stay holes, the stack is untouched. -/
theorem TInv_close {s : ClientState} (msg : Option String) (ht : TInv s) :
    TInv (close msg s) := by
  obtain ⟨hnodup, hfreed, hbounded, hdense⟩ := ht
  refine ⟨hnodup, ?_, ?_, ?_⟩
  · intro i hi
    show tableGet (s.table.map
      (settleEntry (Outcome.rejected ErrKind.ClosingError msg))) i ≠ EntryState.pending
    rw [tableGet_map rfl]
    exact settleEntry_ne_pending _ _
  · intro i hi
    show i < (s.table.map
      (settleEntry (Outcome.rejected ErrKind.ClosingError msg))).length
    rw [List.length_map]
    exact hbounded i hi
  · intro i hi
    have hi2 : i < s.table.length := by
      have : i < (s.table.map
          (settleEntry (Outcome.rejected ErrKind.ClosingError msg))).length := hi
      rwa [List.length_map] at this
    show tableGet (s.table.map
      (settleEntry (Outcome.rejected ErrKind.ClosingError msg))) i ≠ EntryState.hole
    rw [tableGet_map rfl]
    exact settleEntry_ne_hole _ (hdense i hi2)

/-- Allocating a callback slot preserves the table invariant: the popped
index was freed and inside the table, the fresh index extends the table by
one dense slot. -/
theorem TInv_createWritePromise (command : CommandArg)
    (route : Option redis_request.Routes) {s : ClientState} (ht : TInv s) :
    TInv (createWritePromise command route s).2 := by
  obtain ⟨hnodup, hfreed, hbounded, hdense⟩ := ht
  by_cases hc : s.isClosed
  · have heq : (createWritePromise command route s).2 = s := by
      simp [createWritePromise, hc]
    rw [heq]
    exact ⟨hnodup, hfreed, hbounded, hdense⟩
  · have heq : (createWritePromise command route s).2 =
        writeOrBufferRedisRequest (getCallbackIndex s) command route
          { s with available := s.available.tail
                   table := tableStore s.table (getCallbackIndex s) EntryState.pending } := by
      simp [createWritePromise, hc]
    rw [heq]
    refine TInv_congr (writeOrBufferRequest_table _ _)
      (writeOrBufferRequest_available _ _) ?_
    obtain hav | ⟨a, rest, hav⟩ :
        s.available = [] ∨ ∃ a rest, s.available = a :: rest := by
      cases s.available with
      | nil => exact Or.inl rfl
      | cons a rest => exact Or.inr ⟨a, rest, rfl⟩
    · have hidx : getCallbackIndex s = s.table.length := by
        unfold getCallbackIndex
        rw [hav]
        rfl
      rw [hidx, tableStore_append, hav]
      refine ⟨by simp, ?_, ?_, ?_⟩
      · intro i hi
        simp at hi
      · intro i hi
        simp at hi
      · intro i hi
        have hi2 : i < (s.table ++ [EntryState.pending]).length := hi
        rw [List.length_append, List.length_cons, List.length_nil] at hi2
        show tableGet (s.table ++ [EntryState.pending]) i ≠ EntryState.hole
        by_cases hie : i < s.table.length
        · rw [tableGet_append_lt hie]
          exact hdense i hie
        · have : i = s.table.length := by omega
          subst this
          rw [tableGet_append_self]
          simp
    · have hidx : getCallbackIndex s = a := by
        unfold getCallbackIndex
        rw [hav]
        rfl
      have hmem : a ∈ s.available := by rw [hav]; simp
      have hlt : a < s.table.length := hbounded a hmem
      have hstore : tableStore s.table (getCallbackIndex s) EntryState.pending =
          s.table.set a EntryState.pending := by
        rw [hidx]
        unfold tableStore
        rw [if_pos hlt]
      have hnodup2 := List.nodup_cons.mp (hav ▸ hnodup)
      rw [hstore, hav]
      refine ⟨?_, ?_, ?_, ?_⟩
      · show (a :: rest).tail.Nodup
        exact hnodup2.2
      · intro i hi
        have hi2 : i ∈ rest := hi
        show tableGet (s.table.set a EntryState.pending) i ≠ EntryState.pending
        have hia : a ≠ i := fun he => hnodup2.1 (he ▸ hi2)
        rw [tableGet_set_ne _ hia]
        exact hfreed i (by rw [hav]; exact List.mem_cons_of_mem a hi2)
      · intro i hi
        have hi2 : i ∈ rest := hi
        show i < (s.table.set a EntryState.pending).length
        rw [List.length_set]
        exact hbounded i (by rw [hav]; exact List.mem_cons_of_mem a hi2)
      · intro i hi
        have hi2 : i < s.table.length := by
          have : i < (s.table.set a EntryState.pending).length := hi
          rwa [List.length_set] at this
        show tableGet (s.table.set a EntryState.pending) i ≠ EntryState.hole
        by_cases hie : a = i
        · subst hie
          rw [tableGet_set_self _ hlt]
          simp
        · rw [tableGet_set_ne _ hie]
          exact hdense i hi2

/-- The initial connection registration preserves the table invariant (on
a fresh client the stack is necessarily empty). -/
theorem TInv_connectToServer {s : ClientState} (ht : TInv s)
    (h0 : s.table = []) : TInv (connectToServer s) := by
  obtain ⟨hnodup, hfreed, hbounded, hdense⟩ := ht
  have hav : s.available = [] := by
    rcases hne : s.available with _ | ⟨a, rest⟩
    · rfl
    · exfalso
      have := hbounded a (by rw [hne]; simp)
      rw [h0] at this
      simp at this
  refine TInv_congr (writeOrBufferRequest_table _ _)
    (writeOrBufferRequest_available _ _) ?_
  have hstore : tableStore s.table 0 EntryState.pending = [EntryState.pending] := by
    rw [h0]
    rfl
  rw [hstore]
  refine ⟨hnodup, ?_, ?_, ?_⟩
  · intro i hi
    have hi2 : i ∈ s.available := hi
    rw [hav] at hi2
    simp at hi2
  · intro i hi
    have hi2 : i ∈ s.available := hi
    rw [hav] at hi2
    simp at hi2
  · intro i hi
    have hi2 : i < ([EntryState.pending] : List EntryState).length := hi
    simp only [List.length_cons, List.length_nil] at hi2
    have : i = 0 := by omega
    subst this
    show tableGet [EntryState.pending] 0 ≠ EntryState.hole
    simp [tableGet]

/-- Every reachable client state satisfies the full invariant. -/
theorem reachable_clientInv {s : ClientState} (h : Reachable s) : ClientInv s := by
  induction h with
  | init =>
    refine ⟨⟨List.nodup_nil, ?_, ?_, ?_⟩, ?_, ?_, ?_⟩
    · intro i hi
      simp at hi
    · intro i hi
      simp at hi
    · intro i hi
      simp at hi
    · simp
    · simp
    · rfl
  | @step s t hr hstep ih =>
    obtain ⟨hti, hwi⟩ := ih
    cases hstep with
    | connect h0 =>
      refine ⟨TInv_connectToServer hti h0, WInv_writeOrBufferRequest _ ?_⟩
      exact WInv_congr rfl rfl rfl rfl rfl hwi
    | submit command route =>
      refine ⟨TInv_createWritePromise command route hti, ?_⟩
      by_cases hc : s.isClosed
      · have heq : (createWritePromise command route s).2 = s := by
          simp [createWritePromise, hc]
        rw [heq]
        exact hwi
      · have heq : (createWritePromise command route s).2 =
            writeOrBufferRedisRequest (getCallbackIndex s) command route
              { s with available := s.available.tail
                       table := tableStore s.table (getCallbackIndex s) EntryState.pending } := by
          simp [createWritePromise, hc]
        rw [heq]
        exact WInv_writeOrBufferRequest _ (WInv_congr rfl rfl rfl rfl rfl hwi)
    | respond m hp hc =>
      refine ⟨TInv_settleResponse m hti hp, ?_⟩
      obtain ⟨h1, h2, h3, h4, h5⟩ := settleResponse_writeFields m s
      exact WInv_congr h1 h2 h3 h4 h5 hwi
    | closing msg =>
      exact ⟨TInv_close msg hti, WInv_congr rfl rfl rfl rfl rfl hwi⟩
    | writeDone =>
      exact ⟨TInv_congr (onWriteComplete_table s) (onWriteComplete_available s) hti,
        WInv_onWriteComplete hwi⟩

/-- C2: in every reachable client state the callback indices of
outstanding (pending) requests are pairwise distinct — they are distinct
slots of one table, and the free-slot stack holds no duplicates and only
freed (non-pending) in-bounds indices — so `getCallbackIndex` returns
either the most recently freed index (popped from the stack, which
`settleResponse` pushes when a response arrives) or the fresh index equal
to the current table length, and never an index owned by an outstanding
request. -/
theorem callback_index_fresh {s : ClientState} (h : Reachable s) :
    s.available.Nodup ∧
    (∀ i ∈ s.available, tableGet s.table i ≠ EntryState.pending ∧ i < s.table.length) ∧
    tableGet s.table (getCallbackIndex s) ≠ EntryState.pending ∧
    getCallbackIndex s = s.available.headD s.table.length ∧
    (∀ m : ResponseMsg, getCallbackIndex (settleResponse m s) = m.callbackIdx) := by
  obtain ⟨⟨hnodup, hfreed, hbounded, hdense⟩, -⟩ := reachable_clientInv h
  refine ⟨hnodup, fun i hi => ⟨hfreed i hi, hbounded i hi⟩, ?_, rfl,
    fun m => getCallbackIndex_settleResponse m s⟩
  rcases hav : s.available with _ | ⟨a, rest⟩
  · have : getCallbackIndex s = s.table.length := by
      unfold getCallbackIndex
      rw [hav]
      rfl
    rw [this]
    rw [tableGet_eq_hole_of_le (Nat.le_refl _)]
    simp
  · have : getCallbackIndex s = a := by
      unfold getCallbackIndex
      rw [hav]
      rfl
    rw [this]
    exact hfreed a (by rw [hav]; simp)

/-- Witness for `callback_index_fresh` on the reachable state obtained by
connecting a fresh client and settling the connection response: the
recycled index 0 is on the free stack, and the next allocation returns a
non-outstanding index. -/
theorem callback_index_fresh_witness :
    tableGet (settleResponse {} (connectToServer {})).table
      (getCallbackIndex (settleResponse {} (connectToServer {}))) ≠
      EntryState.pending :=
  (callback_index_fresh (Reachable.step
    (Reachable.step Reachable.init (Step.connect {} rfl))
    (Step.respond (connectToServer {}) {} (by decide) rfl))).2.2.1

/-- C5: in every reachable client state the socket sees exactly the
submitted requests in submission order, with none dropped or duplicated:
the data already written, the chunk currently handed to `socket.write`
and the writer buffer concatenate to the submission log; at most one
drain is in progress at any time (`writeInProgress` tracks it); once the
pipeline is quiescent everything submitted has been written; and a
request appended while a drain is in progress is picked up by the
immediately following drain, which takes the whole buffer. -/
theorem write_pipeline_ordered {s : ClientState} (h : Reachable s) :
    s.written ++ s.inFlight.flatten ++ s.writerBuf = s.submitted ∧
    s.inFlight.length ≤ 1 ∧
    (s.writeInProgress = true ↔ s.inFlight ≠ []) ∧
    (s.inFlight = [] → s.writerBuf = [] → s.written = s.submitted) ∧
    (∀ c, s.inFlight = [c] → s.writerBuf ≠ [] →
      (onWriteComplete s).inFlight = [s.writerBuf] ∧
      (onWriteComplete s).written = s.written ++ c) := by
  obtain ⟨-, hw, hone, hpipe⟩ := reachable_clientInv h
  refine ⟨hpipe, hone, hw, ?_, ?_⟩
  · intro h1 h2
    rw [h1, h2] at hpipe
    simpa using hpipe
  · intro c hc hb
    have hblen : s.writerBuf.length > 0 := List.length_pos.mpr hb
    have heq : onWriteComplete s =
        { s with written := s.written ++ c
                 writeInProgress := true
                 inFlight := [s.writerBuf]
                 writerBuf := [] } := by
      unfold onWriteComplete
      rw [hc]
      simp [hblen, writeBufferedRequestsToSocket]
    rw [heq]
    exact ⟨rfl, rfl⟩

/-- The state after two submissions on a fresh client: the first drains
immediately, the second lands in the buffer while the drain is in
progress. -/
def twoSubmitState : ClientState :=
  (createWritePromise (CommandArg.single { id := 1 }) none
    ((createWritePromise (CommandArg.single { id := 0 }) none {}).2)).2

/-- Witness for `write_pipeline_ordered` at `twoSubmitState`. -/
theorem write_pipeline_ordered_witness :
    twoSubmitState.written ++ twoSubmitState.inFlight.flatten ++
      twoSubmitState.writerBuf = twoSubmitState.submitted :=
  (write_pipeline_ordered (Reachable.step
    (Reachable.step Reachable.init
      (Step.submit {} (CommandArg.single { id := 0 }) none))
    (Step.submit ((createWritePromise (CommandArg.single { id := 0 }) none {}).2)
      (CommandArg.single { id := 1 }) none))).1

/-! ## Codec roundtrip and prefix-monotonicity -/

/-- A varint encoding is never empty. -/
theorem varintEncode_ne_nil (n : Nat) : varintEncode n ≠ [] := by
  unfold varintEncode
  split
  · simp
  · simp

/-- Parsing back a varint encoding recovers the number and the rest. -/
theorem parseVarint_encode (n : Nat) (rest : List Nat) :
    parseVarint (varintEncode n ++ rest) = some (n, rest) := by
  induction n using Nat.strong_induction_on with
  | _ n ih =>
    by_cases h : n < 128
    · rw [varintEncode]
      simp [h, parseVarint]
    · rw [varintEncode]
      simp only [h, dite_false, List.cons_append]
      rw [parseVarint]
      have h128 : ¬(n % 128 + 128 < 128) := by omega
      simp only [h128, if_false]
      rw [ih (n / 128) (Nat.div_lt_self (by omega) (by omega))]
      simp only [Option.map_some', Option.some.injEq, Prod.mk.injEq, and_true]
      have := Nat.mod_add_div n 128
      omega

/-- A successful varint parse is stable under appending more data. -/
theorem parseVarint_append : ∀ {b : List Nat} {v : Nat} {r : List Nat},
    parseVarint b = some (v, r) → ∀ e, parseVarint (b ++ e) = some (v, r ++ e) := by
  intro b
  induction b with
  | nil => intro v r h e; simp [parseVarint] at h
  | cons x xs ih =>
    intro v r h e
    by_cases hx : x < 128
    · simp only [parseVarint, if_pos hx, Option.some.injEq, Prod.mk.injEq] at h
      obtain ⟨h1, h2⟩ := h
      subst h1
      subst h2
      simp [parseVarint, hx]
    · simp only [parseVarint, if_neg hx, Option.map_eq_some'] at h
      obtain ⟨⟨v1, r1⟩, h1, h2⟩ := h
      have hv : x - 128 + 128 * v1 = v := by
        have := congrArg Prod.fst h2
        simpa using this
      have hr : r1 = r := by
        have := congrArg Prod.snd h2
        simpa using this
      subst hr
      subst hv
      have h3 := ih h1 e
      simp only [List.cons_append, parseVarint, if_neg hx, h3, Option.map_some']
      rw [show parseVarint (xs.append e) = some (v1, r1 ++ e) from h3]
      rfl

/-- Parsing back an optional field. -/
theorem decodeOpt_encode {α : Type} {enc : α → List Nat}
    {dec : List Nat → Option (α × List Nat)}
    (hdec : ∀ a rest, dec (enc a ++ rest) = some (a, rest))
    (o : Option α) (rest : List Nat) :
    decodeOpt dec (encodeOpt enc o ++ rest) = some (o, rest) := by
  cases o with
  | none => rfl
  | some a =>
    show decodeOpt dec (1 :: (enc a ++ rest)) = some (some a, rest)
    rw [decodeOpt, hdec]
    rfl

/-- Parsing back an encoded string. -/
theorem decodeString_encode (s : String) (rest : List Nat) :
    decodeString (encodeString s ++ rest) = some (s, rest) := by
  obtain ⟨d⟩ := s
  unfold decodeString encodeString
  rw [List.append_assoc]
  simp only [parseVarint_encode]
  have hlen : (List.map Char.toNat d).length = (String.mk d).length := by
    rw [List.length_map]
    rfl
  rw [if_pos (by rw [List.length_append, ← hlen]; omega)]
  rw [List.take_left' hlen, List.drop_left' hlen]
  simp only [List.map_map]
  rw [show Char.ofNat ∘ Char.toNat = id from funext fun c => Char.ofNat_toNat c]
  simp only [List.map_id]

/-- Parsing back the error-type enum. -/
theorem decodeErrType_encode (t : RequestErrorType) (rest : List Nat) :
    decodeErrType (encodeErrType t ++ rest) = some (t, rest) := by
  cases t <;> rfl

/-- Parsing back the constant-response enum. -/
theorem decodeConstResp_encode (c : ConstantResponse) (rest : List Nat) :
    decodeConstResp (encodeConstResp c ++ rest) = some (c, rest) := by
  cases c
  rfl

/-- Parsing back an encoded `RequestError` sub-message. -/
theorem decodeReqErr_encode (re : RequestErrorMsg) (rest : List Nat) :
    decodeReqErr (encodeReqErr re ++ rest) = some (re, rest) := by
  unfold decodeReqErr encodeReqErr
  rw [List.append_assoc]
  simp only [decodeOpt_encode decodeErrType_encode,
    decodeOpt_encode decodeString_encode]

/-- Parsing back an encoded `Response` payload. -/
theorem decodeBody_encode (m : ResponseMsg) :
    decodeBody (encodeBody m) = some m := by
  unfold decodeBody encodeBody
  simp only [List.append_assoc]
  rw [show encodeOpt encodeConstResp m.constantResponse =
    encodeOpt encodeConstResp m.constantResponse ++ [] from (List.append_nil _).symm]
  simp only [parseVarint_encode, decodeOpt_encode decodeString_encode,
    decodeOpt_encode decodeReqErr_encode, decodeOpt_encode parseVarint_encode,
    decodeOpt_encode decodeConstResp_encode]
  rfl

/-- `decodeDelimited` on an encoded frame yields the frame and the rest. -/
theorem decodeDelimited_encode (m : ResponseMsg) (rest : List Nat) :
    decodeDelimited (encodeFrame m ++ rest) = DecodeResult.frame m rest := by
  unfold decodeDelimited encodeFrame
  rw [List.append_assoc]
  simp only [parseVarint_encode]
  rw [if_pos (by rw [List.length_append]; omega)]
  rw [List.take_left, List.drop_left]
  simp only [decodeBody_encode]

/-- A decoded frame is stable under appending more data. -/
theorem decodeDelimited_append_frame {b : List Nat} {m : ResponseMsg}
    {r : List Nat} (h : decodeDelimited b = DecodeResult.frame m r)
    (e : List Nat) : decodeDelimited (b ++ e) = DecodeResult.frame m (r ++ e) := by
  unfold decodeDelimited at h ⊢
  cases hv : parseVarint b with
  | none => rw [hv] at h; simp at h
  | some p =>
    obtain ⟨len, rest0⟩ := p
    rw [hv] at h
    dsimp only at h
    by_cases hl : len ≤ rest0.length
    · rw [if_pos hl] at h
      cases hb : decodeBody (rest0.take len) with
      | none => rw [hb] at h; simp at h
      | some mm =>
        rw [hb] at h
        simp only [DecodeResult.frame.injEq] at h
        obtain ⟨hm, hr⟩ := h
        subst hm
        subst hr
        rw [parseVarint_append hv e]
        dsimp only
        rw [if_pos (by rw [List.length_append]; omega)]
        rw [List.take_append_of_le_length hl, hb,
          List.drop_append_of_le_length hl]
    · rw [if_neg hl] at h
      simp at h

/-- A malformed frame is still malformed with more data appended. -/
theorem decodeDelimited_append_malformed {b : List Nat}
    (h : decodeDelimited b = DecodeResult.malformed) (e : List Nat) :
    decodeDelimited (b ++ e) = DecodeResult.malformed := by
  unfold decodeDelimited at h ⊢
  cases hv : parseVarint b with
  | none => rw [hv] at h; simp at h
  | some p =>
    obtain ⟨len, rest0⟩ := p
    rw [hv] at h
    dsimp only at h
    by_cases hl : len ≤ rest0.length
    · rw [if_pos hl] at h
      cases hb : decodeBody (rest0.take len) with
      | none =>
        rw [parseVarint_append hv e]
        dsimp only
        rw [if_pos (by rw [List.length_append]; omega)]
        rw [List.take_append_of_le_length hl, hb]
      | some mm => rw [hb] at h; simp at h
    · rw [if_neg hl] at h
      simp at h

/-! ## Equations and invariants of the frame loop -/

/-- Loop equation: empty buffer clears `remainingReadData`. -/
theorem processBuf_nil (s : ClientState) :
    processBuf s [] = { s with rem := [] } := by
  simp [processBuf]

/-- Loop equation: an incomplete frame is buffered. -/
theorem processBuf_needMore {buf : List Nat} (s : ClientState)
    (hne : buf ≠ []) (h : decodeDelimited buf = DecodeResult.needMoreData) :
    processBuf s buf = { s with rem := buf } := by
  rcases buf with _ | ⟨b, bs⟩
  · exact absurd rfl hne
  · rw [processBuf, h]

/-- Loop equation: a malformed frame closes the client with the
decode-failure message. -/
theorem processBuf_malformed {buf : List Nat} (s : ClientState)
    (hne : buf ≠ []) (h : decodeDelimited buf = DecodeResult.malformed) :
    processBuf s buf = close (some "Failed to decode the response") s := by
  rcases buf with _ | ⟨b, bs⟩
  · exact absurd rfl hne
  · rw [processBuf, h]

/-- Loop equation: a complete frame is dispatched; on `halt` the loop
returns, on `cont` it continues with the rest of the buffer. -/
theorem processBuf_frame {buf : List Nat} {m : ResponseMsg} {rest : List Nat}
    (s : ClientState) (h : decodeDelimited buf = DecodeResult.frame m rest) :
    processBuf s buf =
      match handleMessage s m with
      | StepResult.halt s1 => s1
      | StepResult.cont s1 => processBuf s1 rest := by
  rcases buf with _ | ⟨b, bs⟩
  · exact absurd h (by rw [show decodeDelimited [] = DecodeResult.needMoreData from rfl]; simp)
  · rw [processBuf, h]

/-- `close` stops the client. -/
theorem stoppedB_close (msg : Option String) (s : ClientState) :
    stoppedB (close msg s) = true := by
  simp [stoppedB, close]

/-- `settleResponse` does not touch the closed/crashed flags or the read
buffer. -/
theorem settleResponse_flags (m : ResponseMsg) (s : ClientState) :
    (settleResponse m s).isClosed = s.isClosed ∧
    (settleResponse m s).crashed = s.crashed ∧
    (settleResponse m s).rem = s.rem := by
  unfold settleResponse
  dsimp only
  split
  · exact ⟨rfl, rfl, rfl⟩
  · exact ⟨rfl, rfl, rfl⟩

/-- A `halt` result of `handleMessage` is a stopped state. -/
theorem handleMessage_halt_stopped {s s1 : ClientState} {m : ResponseMsg}
    (h : handleMessage s m = StepResult.halt s1) : stoppedB s1 = true := by
  unfold handleMessage at h
  by_cases h1 : m.closingError.isSome
  · rw [if_pos h1] at h
    injection h with h
    rw [← h]
    exact stoppedB_close _ _
  · rw [if_neg h1] at h
    by_cases h2 : tableGet s.table m.callbackIdx = EntryState.hole
    · rw [if_pos h2] at h
      injection h with h
      rw [← h]
      simp [stoppedB]
    · rw [if_neg h2] at h
      cases h

/-- A `cont` result of `handleMessage` is `settleResponse`, which keeps
the flags and the read buffer. -/
theorem handleMessage_cont {s s1 : ClientState} {m : ResponseMsg}
    (h : handleMessage s m = StepResult.cont s1) :
    s1 = settleResponse m s ∧ stoppedB s1 = stoppedB s ∧ s1.rem = s.rem := by
  unfold handleMessage at h
  by_cases h1 : m.closingError.isSome
  · rw [if_pos h1] at h
    cases h
  · rw [if_neg h1] at h
    by_cases h2 : tableGet s.table m.callbackIdx = EntryState.hole
    · rw [if_pos h2] at h
      cases h
    · rw [if_neg h2] at h
      injection h with h
      obtain ⟨f1, f2, f3⟩ := settleResponse_flags m s
      subst h
      exact ⟨rfl, by simp [stoppedB, f1, f2], f3⟩

/-! ## Observable equivalence (everything but `remainingReadData`) -/

/-- Two client states are observationally equivalent when all fields except
the internal `remainingReadData` buffer agree, and the buffers agree as
well unless the client has stopped (a stopped client never reads that
buffer again). -/
def EquivObs (s t : ClientState) : Prop :=
  s.obs = t.obs ∧ (stoppedB s = false → s.rem = t.rem)

/-- Observation equality determines the stopped flag. -/
theorem stoppedB_eq_of_obs {s t : ClientState} (h : s.obs = t.obs) :
    stoppedB s = stoppedB t := by
  have h1 : s.isClosed = t.isClosed :=
    congrArg (fun p => p.2.2.2.2.2.2.1) h
  have h2 : s.crashed = t.crashed :=
    congrArg (fun p => p.2.2.2.2.2.2.2.2.1) h
  simp [stoppedB, h1, h2]

/-- `EquivObs` is reflexive. -/
theorem EquivObs.refl (s : ClientState) : EquivObs s s :=
  ⟨Eq.refl _, fun _ => Eq.refl _⟩

/-- `EquivObs` is transitive. -/
theorem EquivObs.trans {a b c : ClientState}
    (h1 : EquivObs a b) (h2 : EquivObs b c) : EquivObs a c := by
  refine ⟨h1.1.trans h2.1, fun hs => ?_⟩
  rw [h1.2 hs, h2.2 (by rw [← stoppedB_eq_of_obs h1.1]; exact hs)]

/-- States with equal observations and equal read buffers are equal. -/
theorem clientState_ext {s t : ClientState} (hobs : s.obs = t.obs)
    (hrem : s.rem = t.rem) : s = t := by
  cases s
  cases t
  unfold ClientState.obs at hobs
  simp only [Prod.mk.injEq] at hobs
  dsimp only at hrem
  obtain ⟨e1, e2, e3, e4, e5, e6, e7, e8, e9, e10, e11⟩ := hobs
  subst e1; subst e2; subst e3; subst e4; subst e5; subst e6
  subst e7; subst e8; subst e9; subst e10; subst e11; subst hrem
  rfl

/-- A running pair of equivalent states is equal. -/
theorem eq_of_equivObs {s t : ClientState} (h : EquivObs s t)
    (hr : stoppedB s = false) : s = t :=
  clientState_ext h.1 (h.2 hr)

/-- Overwriting the read buffer of a stopped state is observationally
invisible. -/
theorem equivObs_rem_stopped {t : ClientState} (x : List Nat)
    (h : stoppedB t = true) : EquivObs { t with rem := x } t := by
  refine ⟨Eq.refl _, fun hs => ?_⟩
  rw [show stoppedB { t with rem := x } = stoppedB t from rfl, h] at hs
  cases hs

/-- Data delivery helpers: a stopped client ignores data. -/
theorem deliverData_stopped {s : ClientState} (h : stoppedB s = true)
    (d : List Nat) : deliverData s d = s := by
  simp [deliverData, h]

/-- A running client hands the buffered leftover plus the chunk to the
frame loop. -/
theorem deliverData_running {s : ClientState} (h : stoppedB s = false)
    (d : List Nat) : deliverData s d = processBuf s (s.rem ++ d) := by
  simp [deliverData, handleReadData, h]

/-- A stopped client ignores frames in the reference semantics. -/
theorem deliverFrame_stopped {s : ClientState} (h : stoppedB s = true)
    (m : ResponseMsg) : deliverFrame s m = s := by
  simp [deliverFrame, h]

/-- A stopped client is a fixed point of the reference semantics. -/
theorem framesRun_stopped {s : ClientState} (h : stoppedB s = true) :
    ∀ frames, framesRun s frames = s := by
  intro frames
  induction frames with
  | nil => rfl
  | cons f fs ih =>
    show framesRun (deliverFrame s f) fs = s
    rw [deliverFrame_stopped h]
    exact ih

/-- `close` commutes with overwriting the read buffer. -/
theorem close_rem_comm (msg : Option String) (s : ClientState) (x : List Nat) :
    close msg { s with rem := x } = { close msg s with rem := x } := rfl

/-- `settleResponse` commutes with overwriting the read buffer. -/
theorem settleResponse_rem_comm (m : ResponseMsg) (s : ClientState) (x : List Nat) :
    settleResponse m { s with rem := x } = { settleResponse m s with rem := x } := by
  unfold settleResponse
  dsimp only
  rcases h : tableGet s.table m.callbackIdx with _ | _ | o <;> simp [h]

/-- `handleMessage` commutes with overwriting the read buffer. -/
theorem handleMessage_rem_comm (m : ResponseMsg) (s : ClientState) (x : List Nat) :
    handleMessage { s with rem := x } m =
      match handleMessage s m with
      | StepResult.halt s1 => StepResult.halt { s1 with rem := x }
      | StepResult.cont s1 => StepResult.cont { s1 with rem := x } := by
  unfold handleMessage
  dsimp only
  by_cases h1 : m.closingError.isSome
  · simp only [if_pos h1]
    rfl
  · by_cases h2 : tableGet s.table m.callbackIdx = EntryState.hole
    · simp only [if_neg h1, if_pos h2]
    · simp only [if_neg h1, if_neg h2]
      rw [settleResponse_rem_comm]

/-- The frame loop only ever reads the state's `rem` through its argument
buffer, so overwriting `rem` beforehand is observationally invisible. -/
theorem processBuf_rem_congr (n : Nat) : ∀ (buf : List Nat), buf.length ≤ n →
    ∀ (s : ClientState) (x : List Nat),
    EquivObs (processBuf { s with rem := x } buf) (processBuf s buf) := by
  induction n with
  | zero =>
    intro buf hlen s x
    have hbe : buf = [] := List.eq_nil_of_length_eq_zero (by omega)
    subst hbe
    rw [processBuf_nil, processBuf_nil]
    exact EquivObs.refl _
  | succ k ih =>
    intro buf hlen s x
    rcases hbe : buf with _ | ⟨b, bs⟩
    · rw [processBuf_nil, processBuf_nil]
      exact EquivObs.refl _
    · cases hd : decodeDelimited (b :: bs) with
      | needMoreData =>
        rw [processBuf_needMore _ (by simp) hd, processBuf_needMore _ (by simp) hd]
        exact EquivObs.refl _
      | malformed =>
        rw [processBuf_malformed _ (by simp) hd, processBuf_malformed _ (by simp) hd]
        rw [close_rem_comm]
        exact equivObs_rem_stopped _ (stoppedB_close _ _)
      | frame m rest =>
        have hrest : rest.length ≤ k := by
          have := decodeDelimited_length hd
          subst hbe
          simp only [List.length_cons] at hlen this
          omega
        rw [processBuf_frame _ hd, processBuf_frame _ hd,
          handleMessage_rem_comm]
        cases hm : handleMessage s m with
        | halt s1 =>
          dsimp only
          exact equivObs_rem_stopped _ (handleMessage_halt_stopped hm)
        | cont s1 =>
          dsimp only
          exact ih rest hrest s1 x

/-- Chunk-split composition: running the frame loop on a buffer and then
delivering another chunk is observationally the same as running the loop
on the concatenation — the buffered partial frame is resumed, processed
frames are not reprocessed, and a stop (close or crash) discards the same
trailing data either way. -/
theorem processBuf_deliver (n : Nat) : ∀ (buf : List Nat), buf.length ≤ n →
    ∀ (s : ClientState) (d2 : List Nat), stoppedB s = false →
    EquivObs (deliverData (processBuf s buf) d2) (processBuf s (buf ++ d2)) := by
  induction n with
  | zero =>
    intro buf hlen s d2 hs
    have hbe : buf = [] := List.eq_nil_of_length_eq_zero (by omega)
    subst hbe
    rw [processBuf_nil, List.nil_append]
    have hs0 : stoppedB { s with rem := ([] : List Nat) } = false := hs
    rw [deliverData_running hs0]
    show EquivObs (processBuf { s with rem := ([] : List Nat) } ([] ++ d2)) _
    rw [List.nil_append]
    exact processBuf_rem_congr d2.length d2 (Nat.le_refl _) s []
  | succ k ih =>
    intro buf hlen s d2 hs
    rcases hbe : buf with _ | ⟨b, bs⟩
    · rw [processBuf_nil, List.nil_append]
      have hs0 : stoppedB { s with rem := ([] : List Nat) } = false := hs
      rw [deliverData_running hs0]
      show EquivObs (processBuf { s with rem := ([] : List Nat) } ([] ++ d2)) _
      rw [List.nil_append]
      exact processBuf_rem_congr d2.length d2 (Nat.le_refl _) s []
    · cases hd : decodeDelimited (b :: bs) with
      | needMoreData =>
        rw [processBuf_needMore _ (by simp) hd]
        have hs0 : stoppedB { s with rem := b :: bs } = false := hs
        rw [deliverData_running hs0]
        show EquivObs (processBuf { s with rem := b :: bs } ((b :: bs) ++ d2)) _
        exact processBuf_rem_congr _ _ (Nat.le_refl _) s (b :: bs)
      | malformed =>
        rw [processBuf_malformed _ (by simp) hd]
        rw [deliverData_stopped (stoppedB_close _ _)]
        rw [processBuf_malformed _ (by simp)
          (decodeDelimited_append_malformed hd d2)]
        exact EquivObs.refl _
      | frame m rest =>
        have hrest : rest.length ≤ k := by
          have := decodeDelimited_length hd
          subst hbe
          simp only [List.length_cons] at hlen this
          omega
        rw [processBuf_frame _ hd,
          processBuf_frame _ (decodeDelimited_append_frame hd d2)]
        cases hm : handleMessage s m with
        | halt s1 =>
          dsimp only
          rw [deliverData_stopped (handleMessage_halt_stopped hm)]
          exact EquivObs.refl _
        | cont s1 =>
          dsimp only
          obtain ⟨-, hflag, -⟩ := handleMessage_cont hm
          exact ih rest hrest s1 d2 (by rw [hflag]; exact hs)

/-- Delivering two chunks one after the other is observationally the same
as delivering their concatenation. -/
theorem deliverData_append (s : ClientState) (d1 d2 : List Nat) :
    EquivObs (deliverData (deliverData s d1) d2) (deliverData s (d1 ++ d2)) := by
  cases hs : stoppedB s with
  | true =>
    rw [deliverData_stopped hs, deliverData_stopped hs, deliverData_stopped hs]
    exact EquivObs.refl _
  | false =>
    rw [deliverData_running hs d1, deliverData_running hs (d1 ++ d2)]
    have h := processBuf_deliver (s.rem ++ d1).length (s.rem ++ d1)
      (Nat.le_refl _) s d2 hs
    rw [List.append_assoc] at h
    exact h

/-- Feeding the chunks of a split one at a time is observationally the
same as feeding their concatenation as one chunk. -/
theorem feedChunks_flatten : ∀ (chunks : List (List Nat)), chunks ≠ [] →
    ∀ s : ClientState, EquivObs (feedChunks s chunks) (deliverData s chunks.flatten) := by
  intro chunks
  induction chunks with
  | nil => intro h; exact absurd rfl h
  | cons c cs ih =>
    intro _ s
    rcases cs with _ | ⟨c2, cs2⟩
    · show EquivObs (deliverData s c) (deliverData s ([c] : List (List Nat)).flatten)
      rw [show ([c] : List (List Nat)).flatten = c ++ [] from rfl, List.append_nil]
      exact EquivObs.refl _
    · show EquivObs (feedChunks (deliverData s c) (c2 :: cs2))
        (deliverData s ((c :: c2 :: cs2 : List (List Nat)).flatten))
      rw [show ((c :: c2 :: cs2 : List (List Nat)).flatten) =
        c ++ (c2 :: cs2 : List (List Nat)).flatten from rfl]
      exact (ih (by simp) (deliverData s c)).trans
        (deliverData_append s c (c2 :: cs2 : List (List Nat)).flatten)

/-- The encoded stream is never confused about frame boundaries: the frame
loop on the whole stream handles the frames one by one, in order, exactly
as the reference semantics does. -/
theorem deliverData_encodeStream : ∀ (frames : List ResponseMsg) (s : ClientState),
    s.rem = [] → deliverData s (encodeStream frames) = framesRun s frames := by
  intro frames
  induction frames with
  | nil =>
    intro s hrem
    cases hs : stoppedB s with
    | true => rw [deliverData_stopped hs]; rfl
    | false =>
      rw [deliverData_running hs, hrem]
      show processBuf s ([] ++ []) = framesRun s []
      rw [List.nil_append, processBuf_nil]
      exact clientState_ext (Eq.refl _) hrem.symm
  | cons f fs ih =>
    intro s hrem
    cases hs : stoppedB s with
    | true => rw [deliverData_stopped hs, framesRun_stopped hs]
    | false =>
      rw [deliverData_running hs, hrem, List.nil_append]
      rw [show encodeStream (f :: fs) = encodeFrame f ++ encodeStream fs from rfl]
      rw [processBuf_frame s (decodeDelimited_encode f (encodeStream fs))]
      have hstep : framesRun s (f :: fs) = framesRun (handleMessage s f).state fs := by
        show framesRun (deliverFrame s f) fs = _
        rw [show deliverFrame s f = (handleMessage s f).state from by
          simp [deliverFrame, hs]]
      rw [hstep]
      cases hm : handleMessage s f with
      | halt s1 =>
        dsimp only [StepResult.state]
        rw [framesRun_stopped (handleMessage_halt_stopped hm)]
      | cont s1 =>
        dsimp only [StepResult.state]
        obtain ⟨-, hflag, hrem1⟩ := handleMessage_cont hm
        have hrem0 : s1.rem = [] := by rw [hrem1, hrem]
        have hs1 : stoppedB s1 = false := by rw [hflag]; exact hs
        have h2 : deliverData s1 (encodeStream fs) = processBuf s1 (encodeStream fs) := by
          rw [deliverData_running hs1, hrem0, List.nil_append]
        rw [← h2]
        exact ih s1 hrem0

/-- C1: for every sequence of response frames and every split of the
concatenated encoded byte stream into successive chunks, feeding the
chunks to `handleReadData` one at a time settles exactly the same
callbacks with the same outcomes in the same order as feeding the whole
stream as one chunk — all observable state (pending table, settlement
log, free-slot stack, closed/crashed flags, write pipeline) agrees, an
incomplete frame at a chunk boundary being buffered in
`remainingReadData` and resumed on the next chunk — and the single-chunk
run equals the reference semantics that handles each decoded frame once,
in order (no frame dropped or duplicated). -/
theorem chunked_reads_equivalent (frames : List ResponseMsg)
    (chunks : List (List Nat)) (s : ClientState)
    (hsplit : chunks.flatten = encodeStream frames)
    (hrem : s.rem = []) :
    (feedChunks s chunks).obs = (feedChunks s [encodeStream frames]).obs ∧
    feedChunks s [encodeStream frames] = framesRun s frames := by
  have h2 : feedChunks s [encodeStream frames] =
      deliverData s (encodeStream frames) := rfl
  refine ⟨?_, by rw [h2]; exact deliverData_encodeStream frames s hrem⟩
  rcases chunks with _ | ⟨c, cs⟩
  · have hfr : encodeStream frames = [] := hsplit.symm
    rw [h2, hfr]
    show s.obs = (deliverData s []).obs
    cases hs : stoppedB s with
    | true => rw [deliverData_stopped hs]
    | false =>
      rw [deliverData_running hs, hrem, List.nil_append, processBuf_nil]
      rfl
  · rw [h2]
    have h1 := feedChunks_flatten (c :: cs) (by simp) s
    rw [hsplit] at h1
    exact h1.1

/-- A concrete frame resolving callback 0 with the `OK` constant. -/
def okFrame : ResponseMsg :=
  { callbackIdx := 0, constantResponse := some ConstantResponse.OK }

/-- Witness for `chunked_reads_equivalent`: one `OK` frame for the single
pending entry, its seven-byte encoding split after the second byte. -/
theorem chunked_reads_equivalent_witness :
    (feedChunks { table := [EntryState.pending] }
        [(encodeStream [okFrame]).take 2, (encodeStream [okFrame]).drop 2]).obs =
      (feedChunks { table := [EntryState.pending] } [encodeStream [okFrame]]).obs :=
  (chunked_reads_equivalent [okFrame] _ _ (by simp) rfl).1
